import Mathlib

/-!
Shallow embedding of the `gh_backup` incremental-mirror tool
(`src/date.rs`, `src/entry.rs`, `src/main.rs`) and proofs about it.

Modelling conventions:
* `DateTime<FixedOffset>` values are compared and equated by the instant they
  denote (chrono's `Ord`/`Eq` for `DateTime` ignores the offset), so they are
  modelled as `Int` instants.
* `HashMap<String, DateTime<FixedOffset>>` is modelled as an association list
  with distinct keys; `insert` replaces the binding of an existing key and
  appends a fresh one, exactly as a keyed map behaves.
* Fallible I/O is modelled with `Except`; the `?` operator of Rust is the
  corresponding early return on `Except.error`.
* The JSON text layer is collapsed to a `FileData` value: a file either holds
  a well-formed serialized key/timestamp sequence or is malformed (any byte
  string that does not parse, including the empty file left by truncation).
-/

/-- Instant denoted by a `chrono::DateTime<FixedOffset>`. -/
abbrev Ts := Int

/-- `entry.rs`: a single repository entry returned by the GitHub API
(`nameWithOwner`, `updatedAt`). -/
structure Entry where
  repo : String
  last_updated : Ts
deriving DecidableEq, Repr

/-- First binding of a key in an association list (`HashMap::get`). -/
def lookupTs : List (String × Ts) → String → Option Ts
  | [], _ => none
  | p :: ps, r => if p.1 = r then some p.2 else lookupTs ps r

/-- `HashMap::insert`: replace the binding of an existing key, otherwise
append a new binding. -/
def insertPair : List (String × Ts) → String → Ts → List (String × Ts)
  | [], r, t => [(r, t)]
  | p :: ps, r, t => if p.1 = r then (r, t) :: ps else p :: insertPair ps r t

/-- `date.rs`: `LastUpdated`, a record of the previous updates
(`HashMap<String, DateTime<FixedOffset>>`). -/
structure LastUpdated where
  entries : List (String × Ts)
deriving DecidableEq, Repr

/-- `LastUpdated::default()`: the empty record. -/
def LastUpdated.empty : LastUpdated := ⟨[]⟩

/-- `self.0.get(&repo)` on the underlying map. -/
def LastUpdated.get (l : LastUpdated) (repo : String) : Option Ts :=
  lookupTs l.entries repo

/-- `date.rs` `LastUpdated::update`: `self.0.insert(repo, at)`. -/
def LastUpdated.update (l : LastUpdated) (repo : String) (at_ : Ts) : LastUpdated :=
  ⟨insertPair l.entries repo at_⟩

/-- `date.rs` `LastUpdated::is_outdated`: looks up `entry.repo`; a present
binding `dt` yields `entry.last_updated >= dt`, an absent one yields `true`. -/
def LastUpdated.is_outdated (l : LastUpdated) (e : Entry) : Bool :=
  match l.get e.repo with
  | some dt => decide (dt ≤ e.last_updated)
  | none => true

/-- Modelled from the spec: the staleness predicate as §4.1 words it —
outdated iff the Ledger has no entry for the repository, or the stored
timestamp is strictly earlier than the remote one (a tie is not outdated). -/
def is_outdated_specModel (l : LastUpdated) (e : Entry) : Bool :=
  match l.get e.repo with
  | some dt => decide (dt < e.last_updated)
  | none => true

/-- The map-level well-formedness invariant of a `HashMap`: keys are distinct. -/
def LastUpdated.WF (l : LastUpdated) : Prop :=
  (l.entries.map Prod.fst).Nodup

section LedgerLemmas

theorem lookupTs_insertPair_self (ps : List (String × Ts)) (r : String) (t : Ts) :
    lookupTs (insertPair ps r t) r = some t := by
  induction ps with
  | nil => simp [insertPair, lookupTs]
  | cons p ps ih =>
    by_cases h : p.1 = r
    · simp [insertPair, lookupTs, h]
    · simp [insertPair, lookupTs, h, ih]

theorem lookupTs_insertPair_ne (ps : List (String × Ts)) (r r' : String) (t : Ts)
    (h : r' ≠ r) : lookupTs (insertPair ps r t) r' = lookupTs ps r' := by
  induction ps with
  | nil => simp [insertPair, lookupTs, Ne.symm h]
  | cons p ps ih =>
    by_cases hp : p.1 = r
    · subst hp
      simp [insertPair, lookupTs, Ne.symm h]
    · by_cases hp' : p.1 = r'
      · simp [insertPair, lookupTs, hp, hp', h]
      · simp [insertPair, lookupTs, hp, hp', ih]

theorem LastUpdated.get_update_self (l : LastUpdated) (r : String) (t : Ts) :
    (l.update r t).get r = some t :=
  lookupTs_insertPair_self l.entries r t

theorem LastUpdated.get_update_ne (l : LastUpdated) (r r' : String) (t : Ts)
    (h : r' ≠ r) : (l.update r t).get r' = l.get r' :=
  lookupTs_insertPair_ne l.entries r r' t h

/-- Inserting a key that is not yet bound appends the binding. -/
theorem insertPair_of_notMem (ps : List (String × Ts)) (r : String) (t : Ts)
    (h : r ∉ ps.map Prod.fst) : insertPair ps r t = ps ++ [(r, t)] := by
  induction ps with
  | nil => simp [insertPair]
  | cons p ps ih =>
    simp only [List.map_cons, List.mem_cons] at h
    push_neg at h
    have hp : ¬ p.1 = r := fun hh => h.1 hh.symm
    simp [insertPair, hp, ih h.2]

end LedgerLemmas

/-- C1 — `is_outdated(entry)` is true iff the Ledger has no entry for
`entry.repo`, or the stored timestamp is earlier than **or equal to**
`entry.last_updated`.  The source comparison is `entry.last_updated >= dt`,
so a tie (stored = remote) *is* outdated; the spec's "strictly earlier /
tie is not outdated" is refuted by `is_outdated_tie_cex`. -/
theorem is_outdated_iff (l : LastUpdated) (e : Entry) :
    l.is_outdated e = true ↔
      l.get e.repo = none ∨ ∃ dt, l.get e.repo = some dt ∧ dt ≤ e.last_updated := by
  unfold LastUpdated.is_outdated
  cases h : l.get e.repo with
  | none => simp
  | some dt => simp [h]

/-- C1 counterexample — with the ledger recording `("r", 5)` and a candidate
`{repo := "r", last_updated := 5}` (stored = remote), the code returns
`true` (outdated) while the spec's predicate says `false` (tie is not
outdated). -/
theorem is_outdated_tie_cex :
    LastUpdated.is_outdated ⟨[("r", 5)]⟩ ⟨"r", 5⟩ = true ∧
      is_outdated_specModel ⟨[("r", 5)]⟩ ⟨"r", 5⟩ = false := by
  constructor <;> rfl

/-!
### Persistence model (`date.rs` `read_from_file` / `write_to_file`)

`serde_json` writes the map as a sequence of key/timestamp pairs and rebuilds
the map from that sequence by successive inserts.  A file on disk is either
that well-formed pair sequence or malformed text (anything `serde_json`
rejects — including the empty file that `File::create` leaves right after
truncating).
-/

/-- Content of the ledger file as the JSON layer sees it. -/
inductive FileData where
  | valid (pairs : List (String × Ts))
  | malformed
deriving DecidableEq, Repr

/-- State of the ledger file's path in the filesystem. -/
inductive FileState where
  | absent
  | unreadable
  | withData (d : FileData)
deriving DecidableEq, Repr

/-- Error raised by `serde_json::from_reader` on malformed content. -/
inductive LoadError where
  | corrupt
deriving DecidableEq, Repr

/-- Error raised by `File::open`. -/
inductive OpenError where
  | notFound
  | permissionDenied
deriving DecidableEq, Repr

/-- `File::open(path)`: fails both when the path is absent and when it exists
but cannot be opened (e.g. permissions). -/
def openFile : FileState → Except OpenError FileData
  | .absent => .error .notFound
  | .unreadable => .error .permissionDenied
  | .withData d => .ok d

/-- `serde_json::to_writer(writer, &self)`: the full pair sequence. -/
def serialize (l : LastUpdated) : FileData := .valid l.entries

/-- `serde_json::from_reader`: rebuild the `HashMap` by inserting each parsed
pair in order; malformed content is an error. -/
def ofPairs (ps : List (String × Ts)) : LastUpdated :=
  ps.foldl (fun l p => l.update p.1 p.2) LastUpdated.empty

/-- Deserialization of a ledger file's content. -/
def deserialize : FileData → Except LoadError LastUpdated
  | .valid ps => .ok (ofPairs ps)
  | .malformed => .error .corrupt

/-- `date.rs` `LastUpdated::read_from_file`: match on `File::open` — on
success deserialize (propagating a parse error with `?`), on *any* open
error return the default (empty) record. -/
def read_from_file (f : FileState) : Except LoadError LastUpdated :=
  match openFile f with
  | .ok d => deserialize d
  | .error _ => .ok LastUpdated.empty

/-- `date.rs` `LastUpdated::write_to_file`: final content written through
`File::create` + `serde_json::to_writer`. -/
def write_to_file (l : LastUpdated) : FileData := serialize l

/-- The file states observable at the path while `write_to_file` runs, in
order: `File::create` truncates the file in place (the empty file — not
valid JSON, hence malformed, like every strict prefix of the serialization
written after it), then the complete serialization is present.  No temporary
path or rename is involved. -/
def write_states (l : LastUpdated) : List FileData :=
  [.malformed, serialize l]

section PersistenceLemmas

/-- Folding `update` over fresh, distinct keys appends the pairs in order. -/
theorem foldl_update_append (ps : List (String × Ts)) (l : LastUpdated)
    (hnd : (ps.map Prod.fst).Nodup)
    (hdis : ∀ r ∈ ps.map Prod.fst, r ∉ l.entries.map Prod.fst) :
    (ps.foldl (fun l p => l.update p.1 p.2) l).entries = l.entries ++ ps := by
  induction ps generalizing l with
  | nil => simp
  | cons p ps ih =>
    simp only [List.map_cons, List.nodup_cons] at hnd
    have hp : p.1 ∉ l.entries.map Prod.fst := hdis p.1 (by simp)
    have hupd : (l.update p.1 p.2).entries = l.entries ++ [(p.1, p.2)] :=
      insertPair_of_notMem l.entries p.1 p.2 hp
    have hdis' : ∀ r ∈ ps.map Prod.fst, r ∉ (l.update p.1 p.2).entries.map Prod.fst := by
      intro r hr
    -- a key of the tail is neither an old key nor the freshly inserted one
      rw [hupd]
      simp only [List.map_append, List.mem_append]
      rintro (hold | hnew)
      · exact hdis r (by simp [hr]) hold
      · simp only [List.map_cons, List.map_nil, List.mem_singleton] at hnew
        exact hnd.1 (hnew ▸ hr)
    rw [List.foldl_cons, ih (l.update p.1 p.2) hnd.2 hdis', hupd]
    simp

theorem ofPairs_entries (ps : List (String × Ts)) (hnd : (ps.map Prod.fst).Nodup) :
    (ofPairs ps).entries = ps := by
  have := foldl_update_append ps LastUpdated.empty hnd (by simp [LastUpdated.empty])
  simpa [ofPairs, LastUpdated.empty] using this

theorem LastUpdated.eq_of_entries (l l' : LastUpdated) (h : l.entries = l'.entries) :
    l = l' := by
  cases l
  cases l'
  simpa using h

end PersistenceLemmas

/-- C3 — `read_from_file` behavior by file state: an absent file *and* an
existing-but-unopenable file both yield the empty record (no error); a file
that opens and parses yields the parsed record; only a file that opens but
is malformed is a fatal error.  The spec's "unreadable existing file is a
fatal error" is refuted by `read_unreadable_cex`. -/
theorem read_from_file_cases :
    read_from_file .absent = .ok LastUpdated.empty ∧
    read_from_file .unreadable = .ok LastUpdated.empty ∧
    (∀ ps, read_from_file (.withData (.valid ps)) = .ok (ofPairs ps)) ∧
    read_from_file (.withData .malformed) = .error .corrupt := by
  refine ⟨rfl, rfl, fun ps => rfl, rfl⟩

/-- C3 counterexample — an existing but unreadable (open fails) ledger file
does not surface an error distinct from the absent case: both return the
empty record, because `read_from_file` maps every `File::open` error to the
default record. -/
theorem read_unreadable_cex :
    read_from_file .unreadable = .ok LastUpdated.empty ∧
      read_from_file .unreadable = read_from_file .absent := by
  exact ⟨rfl, rfl⟩

/-- C4 — `write_to_file` is not atomic: the write truncates the target in
place, so while it runs the path passes through a malformed state (the
truncated/partially written file); only the final state is the complete new
serialization.  For any previous content other than `malformed`, some
observable state is neither the old nor the new complete file. -/
theorem write_states_not_atomic (l : LastUpdated) (old : FileData)
    (hold : old ≠ .malformed) :
    (write_states l).getLast? = some (write_to_file l) ∧
      ∃ s ∈ write_states l, s ≠ old ∧ s ≠ write_to_file l := by
  refine ⟨rfl, .malformed, by simp [write_states], fun h => hold h.symm, ?_⟩
  simp [write_to_file, serialize]

/-- C4 witness — instantiated at a concrete ledger and a concrete old file. -/
theorem write_states_not_atomic_witness :
    (write_states ⟨[("r2", 1)]⟩).getLast? = some (write_to_file ⟨[("r2", 1)]⟩) ∧
      ∃ s ∈ write_states ⟨[("r2", 1)]⟩,
        s ≠ FileData.valid [("r", 0)] ∧ s ≠ write_to_file ⟨[("r2", 1)]⟩ :=
  write_states_not_atomic ⟨[("r2", 1)]⟩ (.valid [("r", 0)]) (by simp)

/-- C4 counterexample — concretely: saving the ledger `{r2 ↦ 1}` over an old
file `{r ↦ 0}` exposes the malformed (truncated) state, which is neither the
old complete file nor the new complete file; so a load interrupting the save
can observe a partial-write state. -/
theorem write_partial_state_cex :
    FileData.malformed ∈ write_states ⟨[("r2", 1)]⟩ ∧
      FileData.malformed ≠ FileData.valid [("r", 0)] ∧
      FileData.malformed ≠ write_to_file ⟨[("r2", 1)]⟩ := by
  refine ⟨by simp [write_states], by simp, by simp [write_to_file, serialize]⟩

/-- C9 — round-trip: for any well-formed (distinct keys), non-empty ledger,
`write_to_file` followed by `read_from_file` reproduces the exact mapping. -/
theorem save_load_roundtrip (l : LastUpdated) (hwf : l.WF)
    (hne : l.entries ≠ []) :
    read_from_file (.withData (write_to_file l)) = .ok l := by
  have h := LastUpdated.eq_of_entries (ofPairs l.entries) l (ofPairs_entries l.entries hwf)
  simp [read_from_file, openFile, write_to_file, serialize, deserialize, h]

/-- C9 witness — round-trip at the concrete ledger `{r ↦ 5, s ↦ 7}`. -/
theorem save_load_roundtrip_witness :
    read_from_file (.withData (write_to_file ⟨[("r", 5), ("s", 7)]⟩)) =
      .ok (⟨[("r", 5), ("s", 7)]⟩ : LastUpdated) :=
  save_load_roundtrip ⟨[("r", 5), ("s", 7)]⟩ (by simp [LastUpdated.WF]) (by simp)

/-!
### Process model (`main.rs`)

External processes are oracles: each `Command::status()` / `Command::output()`
call either fails at invocation (`std::io::Error`, Rust's `?` propagates it)
or completes with an exit status / parsed output.
-/

/-- `std::io::Error` from spawning or communicating with a child process. -/
inductive IoError where
  | spawnFailed
deriving DecidableEq, Repr

/-- `std::process::ExitStatus`, observed through `.success()`. -/
structure ExitStatus where
  success : Bool
deriving DecidableEq, Repr

/-- `main.rs` `git_update`: run `git -C repo pull` (propagating an invocation
error with `?`, in which case the clone is never reached); if the pull
completed but `!status.success()`, run `gh repo clone` (again propagating an
invocation error) and use its status; otherwise keep the pull's status.
The first component is the function's return value; the second counts how
many times the clone command was invoked. -/
def git_update (repo : String) (execute_time : Ts)
    (pullRes cloneRes : Except IoError ExitStatus) :
    Except IoError (String × Ts × ExitStatus) × Nat :=
  match pullRes with
  | .error e => (.error e, 0)
  | .ok status =>
    if !status.success then
      match cloneRes with
      | .error e => (.error e, 1)
      | .ok status2 => (.ok (repo, execute_time, status2), 1)
    else
      (.ok (repo, execute_time, status), 0)

/-- The data of one completed sync, as the spec's `SyncOutcome` names it:
the triple `(repo, execute_time, status)` returned by `git_update`. -/
structure SyncOutcome where
  repo : String
  attempted_at : Ts
  succeeded : Bool
deriving DecidableEq, Repr

/-- Result delivered by `update_set.join_next()` for one sync task, after
the `res??` unwrap of the join layer: either the propagated invocation
error or the `(repo, execute_time, status)` triple. -/
abbrev SyncRes := Except IoError (String × Ts × ExitStatus)

/-- The success branch of the collection loop in `main`
(`if status.success() { last_updated.update(repo, execute_time) }`),
folded over a list of completed outcomes. -/
def applyOutcomes (l : LastUpdated) : List SyncOutcome → LastUpdated
  | [] => l
  | o :: os => applyOutcomes (if o.succeeded then l.update o.repo o.attempted_at else l) os

/-- The collection loop in `main`: `while let Some(res) = join_next` with
`let (repo, execute_time, status) = res??` — the `?` aborts the whole loop
(and `main`) on the first invocation error; a successful status updates the
in-memory record, a failed one touches nothing. -/
def collectOutcomes (l : LastUpdated) : List SyncRes → Except IoError LastUpdated
  | [] => .ok l
  | r :: rs =>
    match r with
    | .error e => .error e
    | .ok (repo, t, status) =>
      collectOutcomes (if status.success then l.update repo t else l) rs

/-- Trace of the collection loop of `main`: before each iteration (and at
the end) the pair of the current in-memory `last_updated` record and the
number of sync results not yet joined. -/
def collectStates (l : LastUpdated) : List SyncRes → List (LastUpdated × Nat)
  | [] => [(l, 0)]
  | r :: rs =>
    (l, rs.length + 1) ::
      match r with
      | .error _ => []
      | .ok (repo, t, status) =>
        collectStates (if status.success then l.update repo t else l) rs

/-- `entry.rs` `DeserializeUserRepos::visit_seq`: stream the entries of one
account's response in order, pushing onto the shared vector exactly those
for which `last_updated.is_outdated` holds. -/
def visit_seq (last_updated : LastUpdated) (entries : List Entry) :
    List Entry → List Entry
  | [] => entries
  | e :: es =>
    visit_seq last_updated
      (if last_updated.is_outdated e then entries ++ [e] else entries) es

/-- Failure of one account's `gh repo ls` invocation: the spawn/join layer
(`output??`) or the `deserialize_seq` parse, both propagated with `?`. -/
inductive ListingError where
  | spawnError
  | parseError
deriving DecidableEq, Repr

/-- Result of one account's listing query after the `output??` unwrap and
parse: the sequence of entries of that account's response, or the error. -/
abbrev AccountResult := Except ListingError (List Entry)

/-- The entry-collection loop in `main`: join each account's output, `??`
aborting on the first failure, and stream the parsed entries through
`visit_seq` into the shared `to_update` vector. -/
def aggregate (last_updated : LastUpdated) (to_update : List Entry) :
    List AccountResult → Except ListingError (List Entry)
  | [] => .ok to_update
  | r :: rs =>
    match r with
    | .error e => .error e
    | .ok entries => aggregate last_updated (visit_seq last_updated to_update entries) rs

/-- Which stage of `main` produced the `Err` that `main` returned, if any. -/
inductive RunError where
  | loadError
  | listError
  | syncError
  | saveError
deriving DecidableEq, Repr

/-- Observable outcome of one run of `main`: the error it returned (if any),
the repositories for which a sync task was spawned, and the sequence of
complete ledger files written to disk during the run. -/
structure RunResult where
  error : Option RunError
  syncAttempted : List String
  diskWrites : List FileData
deriving DecidableEq, Repr

/-- `main.rs` `main`, sequenced on its external oracles: read the ledger
file (`?` aborts on a corrupt file), join the listing queries (`??`/`?`
abort on the first failure), truncate the candidates to `limit`, spawn one
`git_update` per retained candidate, collect the outcomes (`res??` aborts
on the first invocation error), and finally `write_to_file` (its own I/O
success modelled by `saveOk`).  `sync` maps the retained candidates to the
join-ordered results of their sync tasks. -/
def main_run (ledger_file : FileState) (accounts : List AccountResult)
    (limit : Nat) (sync : List Entry → List SyncRes) (saveOk : Bool) : RunResult :=
  match read_from_file ledger_file with
  | .error _ => ⟨some .loadError, [], []⟩
  | .ok last_updated =>
    match aggregate last_updated [] accounts with
    | .error _ => ⟨some .listError, [], []⟩
    | .ok to_update =>
      let retained := to_update.take limit
      match collectOutcomes last_updated (sync retained) with
      | .error _ => ⟨some .syncError, retained.map Entry.repo, []⟩
      | .ok final =>
        if saveOk then ⟨none, retained.map Entry.repo, [write_to_file final]⟩
        else ⟨some .saveError, retained.map Entry.repo, []⟩

section RunLemmas

/-- If no successful outcome in the list names `r`, folding the outcomes
leaves `r`'s binding (or absence) untouched. -/
theorem applyOutcomes_get_frame (os : List SyncOutcome) :
    ∀ (l : LastUpdated) (r : String),
      (∀ o ∈ os, o.repo = r → o.succeeded = false) →
      (applyOutcomes l os).get r = l.get r := by
  induction os with
  | nil => intro l r _; rfl
  | cons o os ih =>
    intro l r h
    by_cases hs : o.succeeded
    · have hrepo : o.repo ≠ r := fun hr => by
        have := h o (by simp) hr
        rw [hs] at this
        cases this
      rw [show applyOutcomes l (o :: os) = applyOutcomes (l.update o.repo o.attempted_at) os
          from by simp [applyOutcomes, hs]]
      rw [ih _ r fun o' ho' => h o' (by simp [ho'])]
      exact l.get_update_ne o.repo r o.attempted_at (Ne.symm hrepo)
    · rw [show applyOutcomes l (o :: os) = applyOutcomes l os from by
        simp [applyOutcomes, hs]]
      exact ih l r fun o' ho' => h o' (by simp [ho'])

/-- If the result list contains an invocation error, the collection loop of
`main` returns an error (the first one it joins). -/
theorem collectOutcomes_error_of_mem (e : IoError) (rs : List SyncRes) :
    ∀ l : LastUpdated, Except.error e ∈ rs →
      ∃ e', collectOutcomes l rs = .error e' := by
  induction rs with
  | nil =>
    intro l h
    simp at h
  | cons r rs ih =>
    intro l h
    cases r with
    | error e0 => exact ⟨e0, rfl⟩
    | ok p =>
      obtain ⟨repo, t, status⟩ := p
      rcases List.mem_cons.mp h with h0 | h1
      · simp at h0
      · exact ih _ h1

/-- If some account's listing failed, the aggregation loop of `main`
returns an error (the first one it joins). -/
theorem aggregate_error_of_mem (e : ListingError) (accounts : List AccountResult) :
    ∀ (l : LastUpdated) (acc : List Entry), Except.error e ∈ accounts →
      ∃ e', aggregate l acc accounts = .error e' := by
  induction accounts with
  | nil =>
    intro l acc h
    simp at h
  | cons r rs ih =>
    intro l acc h
    cases r with
    | error e0 => exact ⟨e0, rfl⟩
    | ok entries =>
      rcases List.mem_cons.mp h with h0 | h1
      · simp at h0
      · exact ih _ _ h1

/-- The collection loop on all-successful joins computes exactly the
outcome fold `applyOutcomes`: the two presentations of the committer agree. -/
theorem collectOutcomes_eq_applyOutcomes (os : List SyncOutcome) :
    ∀ l : LastUpdated,
      collectOutcomes l
          (os.map fun o => Except.ok (o.repo, o.attempted_at, ⟨o.succeeded⟩)) =
        .ok (applyOutcomes l os) := by
  induction os with
  | nil => intro l; rfl
  | cons o os ih =>
    intro l
    simp only [List.map_cons, collectOutcomes, applyOutcomes]
    exact ih _

end RunLemmas

/-- C10 — the streaming filter of `visit_seq` appends to the already
collected vector exactly the entries of the response for which
`is_outdated` holds, in response order; entries collected from previously
processed accounts are preserved as a prefix, neither removed nor reordered. -/
theorem visit_seq_filter (l : LastUpdated) (entries es : List Entry) :
    visit_seq l entries es = entries ++ es.filter (fun e => l.is_outdated e) := by
  induction es generalizing entries with
  | nil => simp [visit_seq]
  | cons e es ih =>
    by_cases h : l.is_outdated e
    · simp [visit_seq, h, ih]
    · simp [visit_seq, h, ih]

/-- C6 — `git_update` case analysis: a pull invocation error is returned at
once and the clone is never invoked; a pull that completes successfully is
the outcome and the clone is never invoked; a pull that completes
unsuccessfully invokes the clone exactly once and the outcome is the
clone's result (its status, or its own invocation error). -/
theorem git_update_spec (repo : String) (t : Ts)
    (pullRes cloneRes : Except IoError ExitStatus) :
    (∀ e, pullRes = .error e →
        git_update repo t pullRes cloneRes = (.error e, 0)) ∧
    (∀ st, pullRes = .ok st → st.success = true →
        git_update repo t pullRes cloneRes = (.ok (repo, t, st), 0)) ∧
    (∀ st, pullRes = .ok st → st.success = false →
        (git_update repo t pullRes cloneRes).2 = 1 ∧
          (git_update repo t pullRes cloneRes).1 =
            cloneRes.map fun st2 => (repo, t, st2)) := by
  refine ⟨?_, ?_, ?_⟩
  · rintro e rfl
    rfl
  · rintro st rfl hs
    simp [git_update, hs]
  · rintro st rfl hs
    cases cloneRes with
    | error e => simp [git_update, hs, Except.map]
    | ok st2 => simp [git_update, hs, Except.map]

/-- C6 witness — the three cases at concrete inputs: pull spawn error,
successful pull, and completed-but-unsuccessful pull with a successful
clone. -/
theorem git_update_spec_witness :
    git_update "r" 0 (.error .spawnFailed) (.ok ⟨true⟩) =
        (.error .spawnFailed, 0) ∧
      git_update "r" 0 (.ok ⟨true⟩) (.ok ⟨false⟩) = (.ok ("r", 0, ⟨true⟩), 0) ∧
      (git_update "r" 0 (.ok ⟨false⟩) (.ok ⟨true⟩)).2 = 1 ∧
        (git_update "r" 0 (.ok ⟨false⟩) (.ok ⟨true⟩)).1 =
          (Except.ok ⟨true⟩ : Except IoError ExitStatus).map fun st2 => ("r", 0, st2) :=
  ⟨(git_update_spec "r" 0 (.error .spawnFailed) (.ok ⟨true⟩)).1 .spawnFailed rfl,
   (git_update_spec "r" 0 (.ok ⟨true⟩) (.ok ⟨false⟩)).2.1 ⟨true⟩ rfl rfl,
   (git_update_spec "r" 0 (.ok ⟨false⟩) (.ok ⟨true⟩)).2.2 ⟨false⟩ rfl rfl⟩

/-- If one outcome succeeds and no other outcome in the list names the same
repository (as a different element), its repository ends bound to its
`attempted_at`. -/
theorem applyOutcomes_get_success (os : List SyncOutcome) :
    ∀ l : LastUpdated, ∀ o ∈ os, o.succeeded = true →
      (∀ o' ∈ os, o'.repo = o.repo → o' = o) →
      (applyOutcomes l os).get o.repo = some o.attempted_at := by
  induction os with
  | nil =>
    intro l o ho
    simp at ho
  | cons o0 os ih =>
    intro l o ho hs huniq
    have hstep : applyOutcomes l (o0 :: os) =
        applyOutcomes (if o0.succeeded then l.update o0.repo o0.attempted_at else l)
          os := rfl
    by_cases hmem : o ∈ os
    · rw [hstep]
      exact ih _ o hmem hs fun o' ho' hr => huniq o' (by simp [ho']) hr
    · have ho0 : o = o0 := by
        rcases List.mem_cons.mp ho with h0 | h1
        · exact h0
        · exact absurd h1 hmem
      subst ho0
      rw [hstep, if_pos hs]
      rw [applyOutcomes_get_frame os _ o.repo ?_]
      · exact LastUpdated.get_update_self l o.repo o.attempted_at
      · intro o' ho' hr
        exact absurd ((huniq o' (by simp [ho']) hr) ▸ ho') hmem

/-- C7 — committing outcomes with one outcome per repository: every
succeeded outcome's repository ends bound to its `attempted_at` (inserted
or overwritten); every failed outcome's repository keeps its previous
binding or absence; and any repository with no succeeded outcome in the
list keeps its previous binding or absence.  The one-outcome-per-repository
hypothesis is forced by `applyOutcomes_dup_cex`: the candidate list is not
deduplicated, and a success plus a failure for the same repository breaks
the claim as stated. -/
theorem applyOutcomes_spec (l : LastUpdated) (os : List SyncOutcome)
    (hnd : (os.map SyncOutcome.repo).Nodup) :
    (∀ o ∈ os, o.succeeded = true →
        (applyOutcomes l os).get o.repo = some o.attempted_at) ∧
    (∀ o ∈ os, o.succeeded = false →
        (applyOutcomes l os).get o.repo = l.get o.repo) ∧
    (∀ r : String, (∀ o ∈ os, o.repo = r → o.succeeded = false) →
        (applyOutcomes l os).get r = l.get r) := by
  have huniq : ∀ o ∈ os, ∀ o' ∈ os, o'.repo = o.repo → o' = o := by
    intro o ho o' ho' hr
    exact List.inj_on_of_nodup_map hnd ho' ho hr
  refine ⟨?_, ?_, fun r h => applyOutcomes_get_frame os l r h⟩
  · intro o ho hs
    exact applyOutcomes_get_success os l o ho hs (huniq o ho)
  · intro o ho hf
    refine applyOutcomes_get_frame os l o.repo ?_
    intro o' ho' hr
    have h' : o' = o := huniq o ho o' ho' hr
    rw [h']
    exact hf

/-- C7 counterexample — the candidate list is not deduplicated, so one
repository can carry two outcomes; with a success `("r", at 1)` followed by
a failure `("r", at 2)`, the failed outcome's repository binding is *not*
identical before (absent) and after (bound to 1) the fold. -/
theorem applyOutcomes_dup_cex :
    (applyOutcomes LastUpdated.empty
        [⟨"r", 1, true⟩, ⟨"r", 2, false⟩]).get "r" = some 1 ∧
      LastUpdated.empty.get "r" = none := by
  constructor <;> rfl

/-- C7 witness — a success for `"a"` overwrites its old binding and a
failure for `"b"` leaves `"b"` absent. -/
theorem applyOutcomes_spec_witness :
    (applyOutcomes ⟨[("a", 0)]⟩ [⟨"a", 5, true⟩, ⟨"b", 6, false⟩]).get "a" =
        some 5 ∧
      (applyOutcomes ⟨[("a", 0)]⟩ [⟨"a", 5, true⟩, ⟨"b", 6, false⟩]).get "b" =
        (⟨[("a", 0)]⟩ : LastUpdated).get "b" := by
  have h := applyOutcomes_spec ⟨[("a", 0)]⟩ [⟨"a", 5, true⟩, ⟨"b", 6, false⟩]
    (by simp)
  exact ⟨h.1 ⟨"a", 5, true⟩ (by simp) rfl, h.2.1 ⟨"b", 6, false⟩ (by simp) rfl⟩

/-- C2 — a sync invocation error is *not* contained to its repository: the
`res??` in the collection loop of `main` propagates the first invocation
error out of `main`, so the remaining outcomes are not folded and the
ledger file is never written (the on-disk Ledger stays in its pre-run
state).  The claim's "recorded as a failure for that repository only,
siblings still folded and saved" is refuted by `main_run_syncerr_cex`. -/
theorem main_run_sync_error_aborts (f : FileState) (accounts : List AccountResult)
    (limit : Nat) (sync : List Entry → List SyncRes) (saveOk : Bool)
    (l0 : LastUpdated) (to_update : List Entry) (e : IoError)
    (hread : read_from_file f = .ok l0)
    (hagg : aggregate l0 [] accounts = .ok to_update)
    (hmem : Except.error e ∈ sync (to_update.take limit)) :
    main_run f accounts limit sync saveOk =
      ⟨some .syncError, (to_update.take limit).map Entry.repo, []⟩ := by
  obtain ⟨e', he'⟩ :=
    collectOutcomes_error_of_mem e (sync (to_update.take limit)) l0 hmem
  simp [main_run, hread, hagg, he']

/-- C2 witness — one candidate, whose pull cannot be spawned: the run ends
in the sync-stage error with nothing written to disk. -/
theorem main_run_sync_error_aborts_witness :
    main_run .absent [.ok [⟨"a", 5⟩]] 1 (fun _ => [.error .spawnFailed]) true =
      ⟨some .syncError, ["a"], []⟩ :=
  main_run_sync_error_aborts .absent [.ok [⟨"a", 5⟩]] 1
    (fun _ => [.error .spawnFailed]) true LastUpdated.empty [⟨"a", 5⟩]
    .spawnFailed rfl rfl (by simp)

/-- C2 counterexample — two candidates; the first joined sync result is an
invocation error, the second a success for `"b"`.  The claim expects the
failure to be recorded for its repository only and `"b"`'s success to be
folded and saved; instead the run aborts with the sync-stage error and the
disk-write sequence is empty — the sibling outcome is discarded. -/
theorem main_run_syncerr_cex :
    main_run .absent [.ok [⟨"a", 5⟩, ⟨"b", 5⟩]] 2
        (fun _ => [.error .spawnFailed, .ok ("b", 1, ⟨true⟩)]) true =
      ⟨some .syncError, ["a", "b"], []⟩ := by
  rfl

/-- C5 — save is tied to run completion: the ledger file is written exactly
once when the run completes without error, and a run that aborts at any
stage (including mid-wave, via the `res??` propagation) performs no disk
write at all, leaving the on-disk Ledger in its pre-run state.  The claim's
"the Ledger is never mutated until all sync outcomes are collected" fails
for the in-memory record, which is refuted by `collect_interleaving_cex`. -/
theorem main_run_save_once (f : FileState) (accounts : List AccountResult)
    (limit : Nat) (sync : List Entry → List SyncRes) (saveOk : Bool) :
    ((main_run f accounts limit sync saveOk).error = none ↔
        (main_run f accounts limit sync saveOk).diskWrites.length = 1) ∧
      ((main_run f accounts limit sync saveOk).error ≠ none →
        (main_run f accounts limit sync saveOk).diskWrites = []) := by
  cases hread : read_from_file f with
  | error e => simp [main_run, hread]
  | ok l0 =>
    cases hagg : aggregate l0 [] accounts with
    | error e => simp [main_run, hread, hagg]
    | ok to_update =>
      cases hco : collectOutcomes l0 (sync (to_update.take limit)) with
      | error e => simp [main_run, hread, hagg, hco]
      | ok final => cases saveOk <;> simp [main_run, hread, hagg, hco]

/-- C5 witness — the trivial complete run writes the ledger file exactly
once. -/
theorem main_run_save_once_witness :
    (main_run .absent [] 0 (fun _ => []) true).diskWrites.length = 1 :=
  ((main_run_save_once .absent [] 0 (fun _ => []) true).1).mp rfl

/-- C5 counterexample — the collection loop updates the in-memory record as
each outcome is joined: after the first of two successes is joined the
record is already mutated (`{a ↦ 1}` ≠ the pre-run empty record) while one
sync is still in flight (one result not yet joined), refuting "the Ledger
is never mutated until all sync outcomes have been collected". -/
theorem collect_interleaving_cex :
    collectStates LastUpdated.empty
        [.ok ("a", 1, ⟨true⟩), .ok ("b", 2, ⟨true⟩)] =
      [(LastUpdated.empty, 2), (⟨[("a", 1)]⟩, 1), (⟨[("a", 1), ("b", 2)]⟩, 0)] ∧
      (⟨[("a", 1)]⟩ : LastUpdated) ≠ LastUpdated.empty := by
  refine ⟨rfl, ?_⟩
  simp [LastUpdated.empty]

/-- C8 — fail-fast listing: if any account's listing result is an error,
`main` aborts at the aggregation stage (the `??`/`?` propagation), with no
sync task spawned and nothing written to disk. -/
theorem main_run_listing_failfast (f : FileState) (accounts : List AccountResult)
    (limit : Nat) (sync : List Entry → List SyncRes) (saveOk : Bool)
    (l0 : LastUpdated) (e : ListingError)
    (hread : read_from_file f = .ok l0)
    (hmem : Except.error e ∈ accounts) :
    main_run f accounts limit sync saveOk = ⟨some .listError, [], []⟩ := by
  obtain ⟨e', he'⟩ := aggregate_error_of_mem e accounts l0 [] hmem
  simp [main_run, hread, he']

/-- C8 witness — a healthy first account and a failing second one: the run
ends in the listing-stage error, no sync is attempted, nothing is saved. -/
theorem main_run_listing_failfast_witness :
    main_run .absent [.ok [⟨"a", 5⟩], .error .spawnError] 3 (fun _ => []) true =
      ⟨some .listError, [], []⟩ :=
  main_run_listing_failfast .absent [.ok [⟨"a", 5⟩], .error .spawnError] 3
    (fun _ => []) true LastUpdated.empty .spawnError rfl (by simp)
